import Mathlib

/-!
Verification of the schema-algebra and allele-index-remapping core of
`src/utils.py` (gnomad_hail utilities).

The embedding models Hail 0.1 `Type`/`Field` values as a nested inductive
`HailType`.  A `Field` of a struct is a triple `(name, attrs, typ)` where
`attrs : Nat` is a *reference* into an explicit heap of attribute maps: the
Python code stores field attributes in shared mutable dicts, and
`merge_TStructs` writes through those references (`attributes = f.attributes`
followed by `attributes[k] = v`), so the heap is made explicit to model
those effects faithfully.
-/

namespace GnomadUtils

/-- An attribute map (Python `dict` of str -> str, insertion ordered). -/
abbrev AttrMap := List (String × String)

/-- The heap of attribute maps; a field's `attrs` is an index into it. -/
abbrev Heap := List AttrMap

/-- Hail 0.1 variant-schema types as used by `utils.py`: the primitive types
distinguished by `annotation_type_is_numeric` / `annotation_type_in_vcf_info`,
the two containers `TArray`/`TSet`, and `TStruct` whose fields are
`(name, attributes reference, type)` triples in declaration order. -/
inductive HailType where
  | tint
  | tlong
  | tfloat
  | tdouble
  | tstring
  | tboolean
  | tarray (elt : HailType)
  | tset (elt : HailType)
  | tstruct (fields : List (String × Nat × HailType))
deriving Repr

/-- A field of a `TStruct`: name, attribute-map reference, type. -/
abbrev Fld := String × Nat × HailType

/-- Name of a field. -/
def Fld.name (f : Fld) : String := f.1

/-- Attribute-map reference of a field. -/
def Fld.attrs (f : Fld) : Nat := f.2.1

/-- Type of a field. -/
def Fld.typ (f : Fld) : HailType := f.2.2

/-- The top-level variant tag of a type.  Python's type-compatibility checks
are `isinstance(x.typ, type(y.typ))`, i.e. outer-class comparison: two types
are compatible iff their tags agree (element types of containers and fields
of structs are ignored). -/
def HailType.tag : HailType → Nat
  | .tint => 0
  | .tlong => 1
  | .tfloat => 2
  | .tdouble => 3
  | .tstring => 4
  | .tboolean => 5
  | .tarray _ => 6
  | .tset _ => 7
  | .tstruct _ => 8

/-- Python `isinstance(t, TStruct)`. -/
def HailType.isTStruct : HailType → Bool
  | .tstruct _ => true
  | _ => false

/-- Python `isinstance(t, TArray)`. -/
def HailType.isTArray : HailType → Bool
  | .tarray _ => true
  | _ => false

/-- The direct fields of a struct type (`struct.fields`); `[]` on
non-structs (every call site in the source passes a `TStruct`). -/
def HailType.structFields : HailType → List Fld
  | .tstruct fs => fs
  | _ => []

mutual

/-- Size measure on types, used only for termination of the recursive
schema algebra. -/
def HailType.tsize : HailType → Nat
  | .tint => 1
  | .tlong => 1
  | .tfloat => 1
  | .tdouble => 1
  | .tstring => 1
  | .tboolean => 1
  | .tarray elt => elt.tsize + 1
  | .tset elt => elt.tsize + 1
  | .tstruct fs => fsizeL fs + 2

/-- Size measure on field lists. -/
def fsizeL : List Fld → Nat
  | [] => 0
  | f :: rest => f.2.2.tsize + 1 + fsizeL rest

end

theorem tsize_pos (t : HailType) : 1 ≤ t.tsize := by
  cases t <;> simp [HailType.tsize]

theorem fsizeL_cons (f : Fld) (rest : List Fld) :
    fsizeL (f :: rest) = f.2.2.tsize + 1 + fsizeL rest := rfl

/-! ## Schema flattener — `flatten_struct` (src/utils.py:164-207)

`flatten_struct(struct, root, leaf_only, recursive)` builds an ordered
mapping path -> Field, depth-first.  The Python builds an `OrderedDict`;
under the data-model invariant that field names are unique within a struct,
paths never collide, so the dict is exactly this association list in
insertion order.  The nested recursive call on line 204 is
`flatten_struct(f.typ, path, leaf_only)` — `recursive` is left at its
default `True` there. -/

mutual

/-- Model of `flatten_struct` on a struct type.  Called only on `TStruct`s in the
source (`struct.fields` would fail otherwise); on a non-struct the model
returns `[]`. -/
def flatten_struct (t : HailType) (root : String) (leafOnly recursive : Bool) :
    List (String × Fld) :=
  match t with
  | .tstruct fs => flattenFields fs root leafOnly recursive
  | _ => []

/-- The `for f in struct.fields` loop of `flatten_struct`:
`path = '{}.{}'.format(root, f.name) if root else f.name`; a struct-typed
field under `recursive` contributes itself first when `leaf_only` is false
and then its flattening at root `path` (with `recursive` back at its
default `True`); any other field contributes the single entry
`(path, f)`. -/
def flattenFields (fs : List Fld) (root : String) (leafOnly recursive : Bool) :
    List (String × Fld) :=
  match fs with
  | [] => []
  | f :: rest =>
    let path := if root = "" then f.1 else root ++ "." ++ f.1
    (if f.2.2.isTStruct && recursive then
      (if leafOnly then [] else [(path, f)]) ++ flatten_struct f.2.2 path leafOnly true
    else
      [(path, f)]) ++ flattenFields rest root leafOnly recursive

end

/-! ## Type predicates (src/utils.py:254-282) -/

/-- Model of `annotation_type_is_numeric` (src/utils.py:254-266). -/
def annotation_type_is_numeric (t : HailType) : Bool :=
  match t with
  | .tint => true
  | .tlong => true
  | .tfloat => true
  | .tdouble => true
  | _ => false

/-- Model of `annotation_type_in_vcf_info` (src/utils.py:268-282): numeric, String,
Array, Set or Boolean. -/
def annotation_type_in_vcf_info (t : HailType) : Bool :=
  annotation_type_is_numeric t ||
    (match t with
     | .tstring => true
     | .tarray _ => true
     | .tset _ => true
     | .tboolean => true
     | _ => false)

/-! ## Attribute grouper (src/utils.py:436-503)

`group_annotations_by_attribute` fills a `defaultdict(list)` keyed by
`Option String` (`None` is a real key).  The model emits the
`(bucket key, path, field)` triples in loop order; the Python dict is the
grouping of this list by its first component, with each bucket in
first-encounter order.  The recursive case in the source re-resolves
`path` inside `schema` via `get_ann_type`, which returns exactly
`field.typ`, so the model recurses into `field.typ` directly. -/

mutual

/-- Model of `group_annotations_by_attribute` (src/utils.py:469-503) as the emission
list of `(key, path, field)` triples.  For each field of the struct:
an Array-typed field is bucketed under its `grouping_key` attribute value
when that attribute is present, and is *dropped otherwise* (the `if` on
line 491 has no `else`); otherwise a struct-typed field is recursed into
when `recursive`; otherwise `default_func` (when provided) names the
bucket; otherwise the field goes under `None`. -/
def group_annotations_by_attribute (t : HailType) (groupingKey : String)
    (root : String) (recursive : Bool) (defaultFunc : Option (Heap → Fld → Option String))
    (h : Heap) : List (Option String × String × Fld) :=
  match t with
  | .tstruct fs => groupFields fs groupingKey root recursive defaultFunc h
  | _ => []

/-- The `for field in fields.fields` loop of `group_annotations_by_attribute`. -/
def groupFields (fs : List Fld) (groupingKey : String) (root : String)
    (recursive : Bool) (defaultFunc : Option (Heap → Fld → Option String))
    (h : Heap) : List (Option String × String × Fld) :=
  match fs with
  | [] => []
  | f :: rest =>
    let path := root ++ "." ++ f.1
    (if f.2.2.isTArray then
      match (h.getD f.2.1 []).lookup groupingKey with
      | some v => [(some v, path, f)]
      | none => []           -- line 491-493: Array without the attribute is dropped
    else if recursive && f.2.2.isTStruct then
      group_annotations_by_attribute f.2.2 groupingKey path recursive defaultFunc h
    else
      match defaultFunc with
      | some df => [(df h f, path, f)]
      | none => [(none, path, f)]) ++ groupFields rest groupingKey root recursive defaultFunc h

end

/-- The `default_values` classification of `get_numbered_annotations`
(src/utils.py:449-456): Array/Set fields default to `"."`, Boolean to
`"0"`, any other natively-exportable type to `"1"`, everything else to
`None`. -/
def default_values (_h : Heap) (f : Fld) : Option String :=
  match f.2.2 with
  | .tarray _ => some "."
  | .tset _ => some "."
  | .tboolean => some "0"
  | t => if annotation_type_in_vcf_info t then some "1" else none

/-- Model of `get_numbered_annotations` (src/utils.py:436-466): group by the
`Number` attribute, with `default_values` when `default_when_missing`. -/
def get_numbered_annotations (t : HailType) (root : String) (recursive : Bool)
    (defaultWhenMissing : Bool) (h : Heap) : List (Option String × String × Fld) :=
  group_annotations_by_attribute t "Number" root recursive
    (if defaultWhenMissing then some default_values else none) h

/-! ## Schema replacer — `replace_vds_variant_schema.get_schema_expr`
(src/utils.py:964-999)

`get_schema_expr(struct, root, old_schema_fields)` builds the selection
program `'{name: source, ...}'`; the model returns it as a `SchemaExpr`
tree instead of the rendered string.  `old_schema_fields` is
`flatten_struct(old_schema, root='va', leaf_only=False)`.

Line 984 reads `isinstance(old_schema_fields[path].typ, f.typ)`.  The
second argument of `isinstance` is there a `Type` *instance* (e.g.
`TInt()`), not a class, so Python raises
`TypeError: isinstance() arg 2 must be a class, type, or tuple of classes
and types` as soon as a path of the new schema is present in the old one.
The model returns that `TypeError` at this point; the `elif`/`else`
branches of lines 985-994 (null-with-warning, struct recursion, reuse) are
unreachable in the source. -/

/-- One node of a field-selection program: a typed null (`'name: NA:type'`),
the reuse of an existing path (`'name: path'`), or a nested
struct-construction. -/
inductive SchemaExpr where
  | nullOf (t : HailType)
  | reuse (path : String)
  | structOf (fields : List (String × SchemaExpr))

/-- The `for f in struct.fields` loop of `get_schema_expr`.  (No mutual
recursion with `get_schema_expr` is needed: the struct-recursion branch of
line 992 sits below the crashing `elif` of line 984 and is unreachable.) -/
def getSchemaExprFields (fs : List Fld) (root : String)
    (oldSchemaFields : List (String × Fld)) :
    Except String (List (String × SchemaExpr)) :=
  match fs with
  | [] => .ok []
  | f :: rest =>
    let path := root ++ "." ++ f.1
    match (oldSchemaFields.lookup path) with
    | none =>
      match getSchemaExprFields rest root oldSchemaFields with
      | .ok tl => .ok ((f.1, .nullOf f.2.2) :: tl)
      | .error e => .error e
    | some _ =>
      -- line 984: `isinstance(old_schema_fields[path].typ, f.typ)` with a
      -- Type instance as second argument.
      .error "TypeError: isinstance() arg 2 must be a class, type, or tuple of classes and types"

/-- Model of `get_schema_expr` as written in the source: each field whose path is
absent from the old schema contributes a typed null, and the first field
whose path is present raises the `TypeError` of line 984. -/
def get_schema_expr (t : HailType) (root : String)
    (oldSchemaFields : List (String × Fld)) : Except String SchemaExpr :=
  match t with
  | .tstruct fs =>
    match getSchemaExprFields fs root oldSchemaFields with
    | .ok fields => .ok (.structOf fields)
    | .error e => .error e
  | _ => .error "AttributeError"

mutual

/-- The selection program as §4.5 of the spec describes `replaceSchema`
(the comparison definition for the intended behaviour of
`get_schema_expr`, with the line-984 check read as the top-level-variant
comparison the docstring and the rest of the file use): path absent →
typed null; top-level variant mismatch → typed null plus a warning;
struct with compatible tag → recursive struct-construction; otherwise
reuse of the existing path.  Returns the program and the warnings. -/
def getSchemaExprSpec (t : HailType) (root : String)
    (oldSchemaFields : List (String × Fld)) : SchemaExpr × List String :=
  match t with
  | .tstruct fs =>
    let (fields, warns) := getSchemaExprSpecFields fs root oldSchemaFields
    (.structOf fields, warns)
  | _ => (.structOf [], [])

/-- Field loop of `getSchemaExprSpec`. -/
def getSchemaExprSpecFields (fs : List Fld) (root : String)
    (oldSchemaFields : List (String × Fld)) :
    List (String × SchemaExpr) × List String :=
  match fs with
  | [] => ([], [])
  | f :: rest =>
    let path := root ++ "." ++ f.1
    let (tl, tlWarns) := getSchemaExprSpecFields rest root oldSchemaFields
    match (oldSchemaFields.lookup path) with
    | none => ((f.1, .nullOf f.2.2) :: tl, tlWarns)
    | some old =>
      if old.2.2.tag ≠ f.2.2.tag then
        ((f.1, .nullOf f.2.2) :: tl, ("TypeIncompatibleOverride " ++ path) :: tlWarns)
      else if f.2.2.isTStruct then
        let (sub, subWarns) := getSchemaExprSpec f.2.2 path oldSchemaFields
        ((f.1, sub) :: tl, subWarns ++ tlWarns)
      else
        ((f.1, .reuse path) :: tl, tlWarns)

end

/-! ## Allele-index remapper for split-to-biallelic — `index_into_arrays`
(src/utils.py:103-127) -/

/-- The four VEP consequence sub-fields filtered by `index_into_arrays`
(src/utils.py:124). -/
def vepSubFields : List String :=
  ["transcript_consequences", "intergenic_consequences",
   "motif_feature_consequences", "regulatory_feature_consequences"]

/-- Model of `index_into_arrays(a_based_annotations, r_based_annotations, vep_root,
drop_ref_ann)`: the emitted Hail expression strings.  `None` arguments and
empty lists behave identically (both falsy), so the lists are plain lists
here; `vep_root` keeps its `Option`. -/
def index_into_arrays (aBased rBased : List String) (vepRoot : Option String)
    (dropRefAnn : Bool) : List String :=
  (aBased.map (fun ann => ann ++ " = " ++ ann ++ "[va.aIndex - 1]")) ++
  (rBased.map (fun ann =>
    if dropRefAnn then ann ++ " = " ++ ann ++ "[va.aIndex]"
    else ann ++ " = [" ++ ann ++ "[0], " ++ ann ++ "[va.aIndex]]")) ++
  (match vepRoot with
   | some root => vepSubFields.map (fun sub =>
      root ++ "." ++ sub ++ " = " ++ root ++ "." ++ sub ++
        ".filter(x => x.allele_num == va.aIndex)")
   | none => [])

/-- The rule C3 claims for A-based values: the *singleton list*
`[value[aIndex-1]]`, in the same emitted-expression notation the source
uses.  (Comparison definition, following the spec's words.) -/
def indexABasedSingleton (ann : String) : String :=
  ann ++ " = [" ++ ann ++ "[va.aIndex - 1]]"

/-- The rule C3 claims for R-based values in drop-reference mode: the
singleton list `[value[aIndex]]`.  (Comparison definition, following the
spec's words.) -/
def indexRBasedDropRefSingleton (ann : String) : String :=
  ann ++ " = [" ++ ann ++ "[va.aIndex]]"

/-- The A-based rule the code emits: the scalar `value[va.aIndex - 1]`
(src/utils.py:118). -/
def indexABasedRule (ann : String) : String :=
  ann ++ " = " ++ ann ++ "[va.aIndex - 1]"

/-- The drop-reference R-based rule the code emits: the scalar
`value[va.aIndex]` (src/utils.py:120). -/
def indexRBasedDropRefRule (ann : String) : String :=
  ann ++ " = " ++ ann ++ "[va.aIndex]"

/-- The R-based rule outside drop-reference mode: the pair
`[value[0], value[va.aIndex]]` (src/utils.py:120). -/
def indexRBasedRule (ann : String) : String :=
  ann ++ " = [" ++ ann ++ "[0], " ++ ann ++ "[va.aIndex]]"

/-- The VEP sub-field filter rule of src/utils.py:125. -/
def vepFilterRule (root sub : String) : String :=
  root ++ "." ++ sub ++ " = " ++ root ++ "." ++ sub ++
    ".filter(x => x.allele_num == va.aIndex)"

/-! ## Allele subsetting of G-based arrays — `cut_allele_from_g_array`
(src/utils.py:96-100) and the triangular genotype indexing it relies on -/

/-- Model of `cut_allele_from_g_array(target, destination)`: the emitted Hail
expression string. -/
def cut_allele_from_g_array (target : String) (dest : Option String) : String :=
  let destination := dest.getD target
  destination ++ " = let removed_alleles = range(1, v.nAltAlleles + 1).filter(i => !aIndices.toSet.contains(i)).toSet in\n" ++
    "range(" ++ target ++ ".size).filter(i => !removed_alleles.contains(gtj(i)) && !removed_alleles.contains(gtk(i)))\n" ++
    ".map(i => " ++ target ++ "[i])"

/-- Modelled from the spec: the host's (Hail's) builtin `gtk`, absent from
src/ — §4.6: `k = floor((sqrt(8·idx+1) − 1)/2)`. -/
def gtk (idx : Nat) : Nat := (Nat.sqrt (8 * idx + 1) - 1) / 2

/-- Modelled from the spec: the host's builtin `gtj`, absent from src/ —
§4.6: `j = idx − k·(k+1)/2`. -/
def gtj (idx : Nat) : Nat := idx - gtk idx * (gtk idx + 1) / 2

/-- The triangular linear index of a genotype pair `(j, k)` with `j ≤ k`
(§4.6: `idx = k·(k+1)/2 + j`). -/
def gtIndex (j k : Nat) : Nat := k * (k + 1) / 2 + j

/-- Modelled from the spec: the host's
`removed_alleles = range(1, v.nAltAlleles + 1).filter(i =>
!aIndices.toSet.contains(i)).toSet` of the expression emitted by
`cut_allele_from_g_array` (`List.range' 1 nAlt` is `[1, ..., nAlt]`). -/
def removedAlleles (nAlt : Nat) (aIndices : List Nat) : List Nat :=
  (List.range' 1 nAlt).filter (fun i => !aIndices.contains i)

/-- Modelled from the spec: the host's
`range(target.size).filter(i => !removed_alleles.contains(gtj(i)) &&
!removed_alleles.contains(gtk(i)))` — the linear genotype indices the
emitted expression keeps, in ascending order. -/
def keptGIndices (size : Nat) (nAlt : Nat) (aIndices : List Nat) : List Nat :=
  (List.range size).filter
    (fun i => !(removedAlleles nAlt aIndices).contains (gtj i) &&
              !(removedAlleles nAlt aIndices).contains (gtk i))

/-- Modelled from the spec: the host's evaluation of the whole expression
emitted by `cut_allele_from_g_array` on one record — the kept indices
mapped back into the original array (`.map(i => target[i])`), so entries
are the original values at their original genotype indices, with no
renumbering into the reduced allele space. -/
def cutGArrayValues (value : List Int) (nAlt : Nat) (aIndices : List Nat) :
    List Int :=
  (keptGIndices value.length nAlt aIndices).map (fun i => value.getD i 0)

/-! ## Schema merger — `merge_TStructs` (src/utils.py:900-948)

The Python keeps each `Field`'s attributes in a shared dict;
`attributes = f.attributes` aliases it and `attributes[k] = v` writes
through the alias.  The model threads the `Heap` explicitly: a field only
names its attribute map by reference, and the merge returns the final
heap, exposing the writes it performed. -/

/-- A diagnostic emitted by `merge_TStructs`: the attribute-conflict
warning of line 937, or the single-struct warning of line 918. -/
inductive MergeWarn where
  | attrConflict (field key oldVal newVal : String)
  | singletonMerge
deriving Repr, DecidableEq

/-- A fatal error of `merge_TStructs`: `ValueError` on an empty input list
(line 915), or the `TypeError` of line 933 on a top-level variant-tag
mismatch (`SchemaTypeConflict`). -/
inductive MergeErr where
  | valueError
  | typeConflict (t1 t2 : HailType)
deriving Repr

/-- Python `x[name]` on a flattened (name-keyed) field dict: the field of
`fs` named `n` (the first, which under the unique-names invariant is the
only one). -/
def lookupFld (n : String) (fs : List Fld) : Option Fld :=
  fs.find? (fun f => f.1 == n)

/-- Lines 934-939, the `for k,v in f2.attributes.iteritems()` loop: merge
the map `src` into the attribute map at heap slot `dst` (aliased by `f`,
whose name appears in the warning); a key already present keeps its value
and warns when the incoming value differs; an absent key is inserted. -/
def mergeAttrsInto (fieldName : String) (dst : Nat) (src : AttrMap) (h : Heap)
    (w : List MergeWarn) : Heap × List MergeWarn :=
  src.foldl (fun hw kv =>
    let m := hw.1.getD dst []
    match m.lookup kv.1 with
    | some v0 =>
      if kv.2 ≠ v0 then (hw.1, hw.2 ++ [.attrConflict fieldName kv.1 v0 kv.2]) else hw
    | none => (hw.1.set dst (m ++ [kv]), hw.2)) (h, w)

/-- Lines 931-939, the `for f2 in f_overlap` loop: raise `TypeError` when
`f2`'s top-level variant differs from `f`'s, otherwise merge `f2`'s
attribute map into `f`'s. -/
def mergeOverlapAttrs (f : Fld) (overlap : List Fld) (h : Heap)
    (w : List MergeWarn) : Except MergeErr (Heap × List MergeWarn) :=
  match overlap with
  | [] => .ok (h, w)
  | f2 :: os =>
    if f2.2.2.tag ≠ f.2.2.tag then .error (.typeConflict f.2.2 f2.2.2)
    else
      let hw := mergeAttrsInto f.1 f.2.1 (h.getD f2.2.1 []) h w
      mergeOverlapAttrs f os hw.1 hw.2

/-- Total type size of a list of types (termination measure). -/
def sizeLSum (s : List HailType) : Nat := (s.map HailType.tsize).sum

/-- Queue measure: each pending field dict costs its fields plus one. -/
def qsize (q : List (List Fld)) : Nat := (q.map (fun l => fsizeL l + 1)).sum

theorem sizeLSum_cons (t : HailType) (l : List HailType) :
    sizeLSum (t :: l) = t.tsize + sizeLSum l := by
  simp [sizeLSum]

theorem qsize_cons (x : List Fld) (q : List (List Fld)) :
    qsize (x :: q) = fsizeL x + 1 + qsize q := by
  simp [qsize]

theorem fsizeL_structFields_lt (t : HailType) :
    fsizeL t.structFields + 1 ≤ t.tsize := by
  cases t <;> (simp only [HailType.structFields, HailType.tsize, fsizeL]; try omega)

theorem qsize_map_structFields_le (l : List HailType) :
    qsize (l.map HailType.structFields) ≤ sizeLSum l := by
  induction l with
  | nil => simp [qsize, sizeLSum]
  | cons t ts ih =>
    have h1 := fsizeL_structFields_lt t
    rw [List.map_cons, qsize_cons, sizeLSum_cons]
    omega

theorem tsize_le_fsizeL_of_mem {g : Fld} {fs : List Fld} (hg : g ∈ fs) :
    g.2.2.tsize + 1 ≤ fsizeL fs := by
  induction fs with
  | nil => cases hg
  | cons f rest ih =>
    rcases List.mem_cons.mp hg with hg | hg
    · subst hg; simp only [fsizeL]; omega
    · have := ih hg; simp only [fsizeL]; omega

theorem tsize_le_fsizeL_of_lookup {n : String} {g : Fld} {fs : List Fld}
    (hg : lookupFld n fs = some g) : g.2.2.tsize + 1 ≤ fsizeL fs :=
  tsize_le_fsizeL_of_mem (List.mem_of_find?_eq_some hg)

theorem sizeLSum_overlap_le (n : String) (rest : List (List Fld)) :
    sizeLSum ((rest.filterMap (lookupFld n)).map (fun f => f.2.2)) ≤ qsize rest := by
  induction rest with
  | nil => simp [sizeLSum, qsize]
  | cons x rest' ih =>
    cases hx : lookupFld n x with
    | none =>
      simp only [List.filterMap_cons, hx, qsize_cons]
      omega
    | some g =>
      have h1 := tsize_le_fsizeL_of_lookup hx
      simp only [List.filterMap_cons, hx, List.map_cons, sizeLSum_cons, qsize_cons]
      omega

mutual

/-- Model of `merge_TStructs(s)` (src/utils.py:900-948) over the explicit heap `h`
and warning log `w`.  An empty list raises `ValueError`; a single struct
is returned unchanged with a warning; otherwise the structs are treated
as a FIFO queue of name-keyed field dicts
(`flatten_struct(x, root='', recursive=False)`, which is exactly
`x.fields` keyed by name) and merged by `mergeLoop`. -/
def merge_TStructs (s : List HailType) (h : Heap) (w : List MergeWarn) :
    Except MergeErr (HailType × Heap × List MergeWarn) :=
  match s with
  | [] => .error .valueError
  | [t] => .ok (t, h, w ++ [.singletonMerge])
  | t0 :: t1 :: ts =>
    match mergeLoop t0.structFields ((t1 :: ts).map HailType.structFields) [] h w with
    | .ok (fields, h', w') => .ok (.tstruct fields, h', w')
    | .error e => .error e
termination_by sizeLSum s
decreasing_by
  simp_wf
  have h1 := fsizeL_structFields_lt t0
  have h2 := qsize_map_structFields_le (t1 :: ts)
  rw [List.map_cons] at h2
  rw [sizeLSum_cons]
  omega

/-- The `while len(s_fields) > 0` / `for name, f in s_current` loops of
`merge_TStructs` (lines 924-946): `cur` is the unread remainder of the
current struct, `rest` the not-yet-popped queue, `fields` the output
dict.  A name already in `fields` is skipped; otherwise the same-named
fields of the remaining queue (`f_overlap`) are checked for tag
compatibility and their attributes merged into `f`'s map; a struct-typed
`f` with a non-empty overlap is replaced by the recursive merge of the
overlapping struct types; the resulting field keeps `f`'s attribute
reference and is appended to `fields`. -/
def mergeLoop (cur : List Fld) (rest : List (List Fld)) (fields : List Fld)
    (h : Heap) (w : List MergeWarn) :
    Except MergeErr (List Fld × Heap × List MergeWarn) :=
  match cur with
  | [] =>
    match rest with
    | [] => .ok (fields, h, w)
    | next :: rest' => mergeLoop next rest' fields h w
  | f :: cs =>
    if (fields.map (fun g => g.1)).contains f.1 then
      mergeLoop cs rest fields h w
    else
      let overlap := rest.filterMap (lookupFld f.1)
      match mergeOverlapAttrs f overlap h w with
      | .error e => .error e
      | .ok (h', w') =>
        if f.2.2.isTStruct && !overlap.isEmpty then
          match merge_TStructs (f.2.2 :: overlap.map (fun g => g.2.2)) h' w' with
          | .ok (merged, h'', w'') =>
            mergeLoop cs rest (fields ++ [(f.1, f.2.1, merged)]) h'' w''
          | .error e => .error e
        else
          mergeLoop cs rest (fields ++ [f]) h' w'
termination_by fsizeL cur + qsize rest
decreasing_by
  · simp_wf
    have := qsize_cons next rest'
    simp only [fsizeL]
    omega
  · simp_wf
    have := tsize_pos f.2.2
    simp only [fsizeL]
    omega
  · rename_i q _hskip _hcond
    simp_wf
    have h1 := sizeLSum_overlap_le f.1 q
    rw [sizeLSum_cons]
    simp only [fsizeL]
    omega
  · simp_wf
    have := tsize_pos f.2.2
    simp only [fsizeL]
    omega
  · simp_wf
    have := tsize_pos f.2.2
    simp only [fsizeL]
    omega

end

/-! ## Derived notions used to state the claims -/

/-- The names of a struct's direct fields, in declaration order. -/
def structNames (t : HailType) : List String := t.structFields.map (fun f => f.1)

/-- Fold `names` into `acc`, keeping the first occurrence of each name in
encounter order (the order in which `merge_TStructs` inserts names into
its output dict). -/
def dedupInto (acc : List String) (names : List String) : List String :=
  names.foldl (fun a n => if a.contains n then a else a ++ [n]) acc

/-- The first-occurrence deduplication of a name list. -/
def dedupFirst (names : List String) : List String := dedupInto [] names

/-- Whether a merge result is the `SchemaTypeConflict` failure (the
`TypeError` of src/utils.py:933). -/
def isTypeConflictResult {α : Type} : Except MergeErr α → Bool
  | .error (.typeConflict _ _) => true
  | _ => false

/-- The attribute-conflict warnings the merge of `src` into a field with
map `base` produces: one per key defined on both sides with differing
values (comparison formula for C7). -/
def attrConflictsOf (fieldName : String) (base src : AttrMap) : List MergeWarn :=
  src.filterMap (fun kv =>
    match base.lookup kv.1 with
    | some v0 =>
      if kv.2 ≠ v0 then some (.attrConflict fieldName kv.1 v0 kv.2) else none
    | none => none)

/-- Any two same-named fields found (by dict lookup) in two distinct
dicts of the queue, for a name not yet resolved into `fields`, have equal
top-level variant tags.  A successful merge loop guarantees this of its
remaining queue (used to prove C6). -/
def queueCompatible (fields : List Fld) (queue : List (List Fld)) : Prop :=
  ∀ (n : String) (g1 g2 : Fld) (p1 p2 p3 : List (List Fld)) (x y : List Fld),
    queue = p1 ++ x :: p2 ++ y :: p3 →
    (fields.map (fun g => g.1)).contains n = false →
    lookupFld n x = some g1 → lookupFld n y = some g2 →
    g1.2.2.tag = g2.2.2.tag

/-- No field name occurs in two different dicts of the queue (hypothesis
of the no-mutation statement for C4). -/
def queueDisjoint (queue : List (List Fld)) : Prop :=
  queue.Pairwise (fun a b => ∀ f ∈ a, lookupFld f.1 b = none)

/-- Dot-join a path of field names (the `'{}.{}'`-chaining of
`flatten_struct` applied along one path). -/
def dotJoin : List String → String
  | [] => ""
  | [n] => n
  | n :: rest => n ++ "." ++ dotJoin rest

mutual

/-- The name-paths of the fields `flatten_struct` emits for a struct, in
emission order (comparison definition for C10, following the spec's
path/field-tree vocabulary: each emitted entry is the sequence of field
names from the root to the field). -/
def structPaths (t : HailType) (leafOnly recursive : Bool) : List (List String) :=
  match t with
  | .tstruct fs => fieldsPaths fs leafOnly recursive
  | _ => []

/-- Field-list part of `structPaths`. -/
def fieldsPaths (fs : List Fld) (leafOnly recursive : Bool) : List (List String) :=
  match fs with
  | [] => []
  | f :: rest =>
    (if f.2.2.isTStruct && recursive then
      (if leafOnly then [] else [[f.1]]) ++
        (structPaths f.2.2 leafOnly true).map (fun p => f.1 :: p)
    else
      [[f.1]]) ++ fieldsPaths rest leafOnly recursive

end

/-! ## Triangular genotype indexing (C9, C8) -/

theorem gtk_gtIndex {j k : Nat} (hjk : j ≤ k) : gtk (gtIndex j k) = k := by
  have hdvd : 2 ∣ k * (k + 1) := (Nat.even_mul_succ_self k).two_dvd
  have e0 : k * (k + 1) = k * k + k := by ring
  have e1 : 8 * gtIndex j k + 1 = 4 * (k * k) + 4 * k + 8 * j + 1 := by
    unfold gtIndex; omega
  have lb : (2 * k + 1) * (2 * k + 1) ≤ 8 * gtIndex j k + 1 := by
    have : (2 * k + 1) * (2 * k + 1) = 4 * (k * k) + 4 * k + 1 := by ring
    omega
  have ub : 8 * gtIndex j k + 1 < (2 * k + 3) * (2 * k + 3) := by
    have : (2 * k + 3) * (2 * k + 3) = 4 * (k * k) + 12 * k + 9 := by ring
    omega
  have hs1 : 2 * k + 1 ≤ Nat.sqrt (8 * gtIndex j k + 1) := Nat.le_sqrt.mpr lb
  have hs2 : Nat.sqrt (8 * gtIndex j k + 1) < 2 * k + 3 := Nat.sqrt_lt.mpr ub
  unfold gtk
  omega

theorem gtj_gtIndex {j k : Nat} (hjk : j ≤ k) : gtj (gtIndex j k) = j := by
  have hk := gtk_gtIndex hjk
  have hdvd : 2 ∣ k * (k + 1) := (Nat.even_mul_succ_self k).two_dvd
  unfold gtj
  rw [hk]
  unfold gtIndex
  omega

/-- Evaluate the decoders at a concrete linear index via the round trip. -/
theorem gtjk_eval {idx j k : Nat} (hjk : j ≤ k) (hidx : gtIndex j k = idx) :
    gtj idx = j ∧ gtk idx = k := by
  subst hidx
  exact ⟨gtj_gtIndex hjk, gtk_gtIndex hjk⟩

/-- C9: for all `nAllele` in 1..20 and all genotype pairs `0 ≤ j ≤ k <
nAllele`, decoding the triangular linear index `gtIndex j k = k·(k+1)/2 + j`
with the `gtj`/`gtk` formulas recovers `(j, k)`. -/
theorem triangular_round_trip (nAllele j k : Nat) (_h1 : 1 ≤ nAllele)
    (_h2 : nAllele ≤ 20) (hjk : j ≤ k) (_hk : k < nAllele) :
    gtj (gtIndex j k) = j ∧ gtk (gtIndex j k) = k :=
  ⟨gtj_gtIndex hjk, gtk_gtIndex hjk⟩

/-- Witness for C9 at `nAllele = 3`, `(j, k) = (1, 2)` (`gtIndex 1 2 = 4`). -/
theorem triangular_round_trip_witness :
    1 ≤ 3 ∧ 3 ≤ 20 ∧ 1 ≤ 2 ∧ 2 < 3 ∧ (gtj (gtIndex 1 2) = 1 ∧ gtk (gtIndex 1 2) = 2) :=
  ⟨by decide, by decide, by decide, by decide,
    triangular_round_trip 3 1 2 (by decide) (by decide) (by decide) (by decide)⟩

/-- C8: allele subsetting of a G-based array.  `removedAlleles` is exactly
the set difference `{1..nAlt} \ aIndices`; a linear index is kept iff
neither decoded genotype component is removed; the kept indices are
strictly ascending (original array order); the emitted rule maps them back
into the original array without renumbering; and for `nAllele = 3`
(array length 6, `nAlt = 2` alternate alleles) with `aIndices = [0, 1]`
(removing allele 2) exactly indices 0, 1, 2 survive, in order. -/
theorem g_based_allele_removal :
    (∀ (nAlt : Nat) (aIndices : List Nat) (i : Nat),
      i ∈ removedAlleles nAlt aIndices ↔ (1 ≤ i ∧ i ≤ nAlt ∧ i ∉ aIndices)) ∧
    (∀ (size nAlt : Nat) (aIndices : List Nat) (idx : Nat),
      idx ∈ keptGIndices size nAlt aIndices ↔
        (idx < size ∧ gtj idx ∉ removedAlleles nAlt aIndices ∧
          gtk idx ∉ removedAlleles nAlt aIndices)) ∧
    (∀ (size nAlt : Nat) (aIndices : List Nat),
      (keptGIndices size nAlt aIndices).Pairwise (· < ·)) ∧
    (∀ (value : List Int) (nAlt : Nat) (aIndices : List Nat),
      cutGArrayValues value nAlt aIndices =
        (keptGIndices value.length nAlt aIndices).map (fun i => value.getD i 0)) ∧
    keptGIndices 6 2 [0, 1] = [0, 1, 2] ∧
    cutGArrayValues [30, 31, 32, 33, 34, 35] 2 [0, 1] = [30, 31, 32] := by
  have e0 := gtjk_eval (show (0:Nat) ≤ 0 by decide) (show gtIndex 0 0 = 0 by decide)
  have e1 := gtjk_eval (show (0:Nat) ≤ 1 by decide) (show gtIndex 0 1 = 1 by decide)
  have e2 := gtjk_eval (show (1:Nat) ≤ 1 by decide) (show gtIndex 1 1 = 2 by decide)
  have e3 := gtjk_eval (show (0:Nat) ≤ 2 by decide) (show gtIndex 0 2 = 3 by decide)
  have e4 := gtjk_eval (show (1:Nat) ≤ 2 by decide) (show gtIndex 1 2 = 4 by decide)
  have e5 := gtjk_eval (show (2:Nat) ≤ 2 by decide) (show gtIndex 2 2 = 5 by decide)
  have hrem : removedAlleles 2 [0, 1] = [2] := by decide
  have hrange : List.range 6 = [0, 1, 2, 3, 4, 5] := by decide
  have hkept : keptGIndices 6 2 [0, 1] = [0, 1, 2] := by
    unfold keptGIndices
    rw [hrem, hrange]
    simp [List.filter, e0.1, e0.2, e1.1, e1.2, e2.1, e2.2, e3.1, e3.2, e4.1, e4.2,
      e5.1, e5.2]
  refine ⟨?_, ?_, ?_, ?_, hkept, ?_⟩
  · intro nAlt aIndices i
    constructor
    · intro him
      have h1 := List.mem_filter.mp him
      have h2 := List.mem_range'_1.mp h1.1
      have h3 : i ∉ aIndices := by
        have := h1.2
        simp at this
        exact this
      exact ⟨by omega, by omega, h3⟩
    · rintro ⟨hi1, hi2, hi3⟩
      refine List.mem_filter.mpr ⟨List.mem_range'_1.mpr (by omega), by simp [hi3]⟩
  · intro size nAlt aIndices idx
    simp [keptGIndices, List.mem_filter, List.mem_range]
  · intro size nAlt aIndices
    exact (List.pairwise_lt_range size).filter _
  · intro value nAlt aIndices
    rfl
  · show cutGArrayValues [30, 31, 32, 33, 34, 35] 2 [0, 1] = [30, 31, 32]
    unfold cutGArrayValues
    have hlen : ([30, 31, 32, 33, 34, 35] : List Int).length = 6 := by decide
    rw [hlen, hkept]
    decide

/-! ## C1 — replace-schema selection program -/

/-- C1 (code bug): for old schema `{a: Int}` and new schema
`{a: Int, b: String}` the claim (and the docstring of
`replace_vds_variant_schema`) expect the selection program
`{a: va.a, b: NA: String}`; the code instead raises a `TypeError` as soon
as it reaches the present path `va.a`, because line 984 passes the Type
*instance* `f.typ` as `isinstance`'s second argument.  The intended
behaviour (`getSchemaExprSpec`, the spec's §4.5 rule with the tag
comparison used elsewhere in the file) does produce the claimed program,
with no warning. -/
theorem replace_schema_null_fill_bug :
    get_schema_expr (.tstruct [("a", 1, .tint), ("b", 2, .tstring)]) "va"
        (flatten_struct (.tstruct [("a", 0, .tint)]) "va" false true) =
      .error "TypeError: isinstance() arg 2 must be a class, type, or tuple of classes and types" ∧
    getSchemaExprSpec (.tstruct [("a", 1, .tint), ("b", 2, .tstring)]) "va"
        (flatten_struct (.tstruct [("a", 0, .tint)]) "va" false true) =
      (.structOf [("a", .reuse "va.a"), ("b", .nullOf .tstring)], []) :=
  ⟨rfl, rfl⟩

/-! ## C2 — default arity classification -/

/-- C2 (code bug): grouping a struct by the `Number` attribute with the
default classification on.  The `Set`, `Boolean`, `Int` and `Struct`
fields land in the buckets `"."`, `"0"`, `"1"` and `None` as claimed, and
an `Array` field *with* the attribute lands under the attribute's value —
but the `Array[Int]` field `xa` without the attribute is placed in *no*
bucket at all (the claim and the docstring of `get_numbered_annotations`
put it under `"."`): no emitted entry has path `va.xa`. -/
theorem default_arity_classification_bug :
    get_numbered_annotations
        (.tstruct [("xa", 0, .tarray .tint), ("xs", 1, .tset .tint),
          ("xb", 2, .tboolean), ("xi", 3, .tint), ("xt", 4, .tstruct [])])
        "va" false true [[], [], [], [], []] =
      [(some ".", "va.xs", ("xs", 1, .tset .tint)),
       (some "0", "va.xb", ("xb", 2, .tboolean)),
       (some "1", "va.xi", ("xi", 3, .tint)),
       (none, "va.xt", ("xt", 4, .tstruct []))] ∧
    ((get_numbered_annotations
        (.tstruct [("xa", 0, .tarray .tint), ("xs", 1, .tset .tint),
          ("xb", 2, .tboolean), ("xi", 3, .tint), ("xt", 4, .tstruct [])])
        "va" false true [[], [], [], [], []]).map (fun e => e.2.1)).contains "va.xa" = false ∧
    get_numbered_annotations (.tstruct [("xa", 0, .tarray .tint)]) "va" false true
        [[("Number", "A")]] =
      [(some "A", "va.xa", ("xa", 0, .tarray .tint))] :=
  ⟨rfl, rfl, rfl⟩

/-! ## C3 — split-to-biallelic rewrite rules -/

theorem split_index_singleton_counterexample :
    index_into_arrays ["va.info.AC"] [] none false =
      ["va.info.AC = va.info.AC[va.aIndex - 1]"] ∧
    index_into_arrays [] ["va.info.AF"] none true =
      ["va.info.AF = va.info.AF[va.aIndex]"] ∧
    index_into_arrays ["va.info.AC"] [] none false ≠
      [indexABasedSingleton "va.info.AC"] ∧
    index_into_arrays [] ["va.info.AF"] none true ≠
      [indexRBasedDropRefSingleton "va.info.AF"] := by
  refine ⟨rfl, rfl, ?_, ?_⟩ <;> decide

theorem split_index_rules (aB rB : List String) (vr : Option String) (dr : Bool) :
    index_into_arrays aB rB vr dr =
      aB.map indexABasedRule ++
      rB.map (fun ann => if dr then indexRBasedDropRefRule ann else indexRBasedRule ann) ++
      (match vr with
       | some root => vepSubFields.map (vepFilterRule root)
       | none => []) := rfl

/-! ## C10 — flattened keys are dot-joined paths -/

theorem dotJoin_singleton (n : String) : dotJoin [n] = n := rfl

theorem dotJoin_cons_ne {p : List String} (n : String) (hp : p ≠ []) :
    dotJoin (n :: p) = n ++ "." ++ dotJoin p := by
  cases p with
  | nil => exact absurd rfl hp
  | cons b t => rfl

theorem append_dot_ne_empty (a b : String) : a ++ "." ++ b ≠ "" := by
  intro hc
  have hdot : (".").length = 1 := rfl
  have h0 : ("" : String).length = 0 := rfl
  have h1 : (a ++ "." ++ b).length = a.length + 1 + b.length := by
    rw [String.length_append, String.length_append, hdot]
  rw [hc, h0] at h1
  omega

theorem fieldsPaths_ne_nil (fs : List Fld) (lo rc : Bool) :
    ∀ p ∈ fieldsPaths fs lo rc, p ≠ [] := by
  induction fs with
  | nil => simp [fieldsPaths]
  | cons f rest ih =>
    intro p hp
    simp only [fieldsPaths, List.mem_append] at hp
    rcases hp with hp | hp
    · split at hp
      · rcases List.mem_append.mp hp with hp | hp
        · split at hp <;> simp_all
        · obtain ⟨q, _, rfl⟩ := List.mem_map.mp hp
          simp
      · simp_all
    · exact ih p hp

theorem structPaths_ne_nil (t : HailType) (lo rc : Bool) :
    ∀ p ∈ structPaths t lo rc, p ≠ [] := by
  cases t <;> simp [structPaths] <;> exact fun p hp => fieldsPaths_ne_nil _ lo rc p hp

theorem flattenFields_keys_nonroot (fs : List Fld) (r : String) (lo rc : Bool)
    (hr : r ≠ "") :
    (flattenFields fs r lo rc).map Prod.fst =
      (fieldsPaths fs lo rc).map (fun p => r ++ "." ++ dotJoin p) := by
  suffices H : ∀ (n : Nat) (fs : List Fld) (r : String) (lo rc : Bool),
      fsizeL fs ≤ n → r ≠ "" →
      (flattenFields fs r lo rc).map Prod.fst =
        (fieldsPaths fs lo rc).map (fun p => r ++ "." ++ dotJoin p) by
    exact H (fsizeL fs) fs r lo rc le_rfl hr
  intro n
  induction n using Nat.strong_induction_on with
  | _ n ih =>
    intro fs r lo rc hle hr
    match fs with
    | [] => simp [flattenFields, fieldsPaths]
    | f :: rest =>
      have hsz := fsizeL_cons f rest
      have hrest : (flattenFields rest r lo rc).map Prod.fst =
          (fieldsPaths rest lo rc).map (fun p => r ++ "." ++ dotJoin p) := by
        have hpos := tsize_pos f.2.2
        exact ih (fsizeL rest) (by omega) rest r lo rc le_rfl hr
      simp only [flattenFields, fieldsPaths, if_neg hr]
      cases hst : (f.2.2.isTStruct && rc) with
      | false =>
        simp [hst, List.map_append, hrest, dotJoin]
      | true =>
        obtain ⟨sub, hsub⟩ : ∃ sub, f.2.2 = .tstruct sub := by
          rcases hf : f.2.2 <;> rw [hf] at hst <;>
            simp [HailType.isTStruct] at hst <;> exact ⟨_, rfl⟩
        have hchild : (flatten_struct f.2.2 (r ++ "." ++ f.1) lo true).map Prod.fst =
            (structPaths f.2.2 lo true).map
              (fun p => (r ++ "." ++ f.1) ++ "." ++ dotJoin p) := by
          rw [hsub]
          show (flattenFields sub (r ++ "." ++ f.1) lo true).map Prod.fst = _
          have hlt : fsizeL sub + 3 + fsizeL rest ≤ n := by
            rw [hsub] at hsz
            simp only [HailType.tsize] at hsz
            omega
          exact ih (fsizeL sub) (by omega) sub (r ++ "." ++ f.1) lo true le_rfl
            (append_dot_ne_empty r f.1)
        have hmapped :
            ((structPaths f.2.2 lo true).map (fun p => f.1 :: p)).map
                (fun p => r ++ "." ++ dotJoin p) =
              (structPaths f.2.2 lo true).map
                (fun p => (r ++ "." ++ f.1) ++ "." ++ dotJoin p) := by
          rw [List.map_map]
          refine List.map_congr_left (fun p hp => ?_)
          have hne := structPaths_ne_nil f.2.2 lo true p hp
          simp only [Function.comp_apply, dotJoin_cons_ne f.1 hne,
            String.append_assoc]
        cases lo with
        | true => simp [hst, List.map_append, hchild, hrest, hmapped]
        | false => simp [hst, List.map_append, hchild, hrest, hmapped, dotJoin]

theorem flattenFields_keys_emptyroot (fs : List Fld) (lo rc : Bool)
    (hnames : ∀ f ∈ fs, f.1 ≠ "") :
    (flattenFields fs "" lo rc).map Prod.fst =
      (fieldsPaths fs lo rc).map dotJoin := by
  induction fs with
  | nil => simp [flattenFields, fieldsPaths]
  | cons f rest ih =>
    have hrest := ih (fun g hg => hnames g (List.mem_cons_of_mem f hg))
    have hname : f.1 ≠ "" := hnames f (List.mem_cons_self f rest)
    simp only [flattenFields, fieldsPaths, if_pos rfl]
    cases hst : (f.2.2.isTStruct && rc) with
    | false =>
      simp [hst, List.map_append, hrest, dotJoin]
    | true =>
      obtain ⟨sub, hsub⟩ : ∃ sub, f.2.2 = .tstruct sub := by
        rcases hf : f.2.2 <;> rw [hf] at hst <;>
          simp [HailType.isTStruct] at hst <;> exact ⟨_, rfl⟩
      have hchild : (flatten_struct f.2.2 f.1 lo true).map Prod.fst =
          (structPaths f.2.2 lo true).map (fun p => f.1 ++ "." ++ dotJoin p) := by
        rw [hsub]
        show (flattenFields sub f.1 lo true).map Prod.fst = _
        exact flattenFields_keys_nonroot sub f.1 lo true hname
      have hmapped :
          ((structPaths f.2.2 lo true).map (fun p => f.1 :: p)).map dotJoin =
            (structPaths f.2.2 lo true).map (fun p => f.1 ++ "." ++ dotJoin p) := by
        rw [List.map_map]
        refine List.map_congr_left (fun p hp => ?_)
        have hne := structPaths_ne_nil f.2.2 lo true p hp
        simp [dotJoin_cons_ne f.1 hne]
      cases lo with
      | true => simp [hst, List.map_append, hchild, hrest, hmapped]
      | false => simp [hst, List.map_append, hchild, hrest, hmapped, dotJoin]

/-- C10: flattening with the empty root produces keys that are exactly the
dot-joined field-name paths (in particular, bare field names with no
leading dot at the top level), provided the struct's direct field names
are nonempty; with a non-empty root every key is the root, a dot, then
the dot-joined field path. -/
theorem flatten_keys_paths (t : HailType) (lo rc : Bool) :
    ((∀ f ∈ t.structFields, f.1 ≠ "") →
      (flatten_struct t "" lo rc).map Prod.fst = (structPaths t lo rc).map dotJoin) ∧
    (∀ r : String, r ≠ "" →
      (flatten_struct t r lo rc).map Prod.fst =
        (structPaths t lo rc).map (fun p => r ++ "." ++ dotJoin p)) := by
  constructor
  · intro hnames
    cases t with
    | tstruct fs => exact flattenFields_keys_emptyroot fs lo rc hnames
    | tint => rfl
    | tlong => rfl
    | tfloat => rfl
    | tdouble => rfl
    | tstring => rfl
    | tboolean => rfl
    | tarray e => rfl
    | tset e => rfl
  · intro r hr
    cases t with
    | tstruct fs => exact flattenFields_keys_nonroot fs r lo rc hr
    | tint => rfl
    | tlong => rfl
    | tfloat => rfl
    | tdouble => rfl
    | tstring => rfl
    | tboolean => rfl
    | tarray e => rfl
    | tset e => rfl

/-- C10 (counterexample): for the struct `{"": Struct{b: Int}}` — an
empty field name — flattening at the empty root yields the key `"b"`,
but the dot-joined field path is `".b"`: the empty-root flatten drops the
separating dot after an empty name, so the keys are not exactly the
dot-joined paths for every struct. -/
theorem flatten_keys_paths_counterexample :
    (flatten_struct (.tstruct [("", 0, .tstruct [("b", 1, .tint)])]) "" true true).map
      Prod.fst = ["b"] ∧
    (structPaths (.tstruct [("", 0, .tstruct [("b", 1, .tint)])]) true true).map
      dotJoin = [".b"] ∧
    (["b"] : List String) ≠ [".b"] :=
  ⟨rfl, rfl, by decide⟩

/-- Witness for C10 on the docstring's example shape
`Struct{rsid: String, info: Struct{AC: Array[Int]}}`, flattened at the
empty root and at root `va`. -/
theorem flatten_keys_paths_witness :
    ((flatten_struct (.tstruct [("rsid", 0, .tstring),
        ("info", 1, .tstruct [("AC", 2, .tarray .tint)])]) "" true true).map Prod.fst =
      (structPaths (.tstruct [("rsid", 0, .tstring),
        ("info", 1, .tstruct [("AC", 2, .tarray .tint)])]) true true).map dotJoin) ∧
    ((flatten_struct (.tstruct [("rsid", 0, .tstring),
        ("info", 1, .tstruct [("AC", 2, .tarray .tint)])]) "va" true true).map Prod.fst =
      (structPaths (.tstruct [("rsid", 0, .tstring),
        ("info", 1, .tstruct [("AC", 2, .tarray .tint)])]) true true).map
        (fun p => "va" ++ "." ++ dotJoin p)) :=
  ⟨(flatten_keys_paths _ true true).1 (by decide),
   (flatten_keys_paths _ true true).2 "va" (by decide)⟩

/-! ## Helper lemmas about attribute maps, the heap, and the overlap loop -/

theorem lookup_append_left {m : AttrMap} {k : String} {v : String}
    (hm : m.lookup k = some v) (m2 : AttrMap) : (m ++ m2).lookup k = some v := by
  induction m with
  | nil => simp [List.lookup] at hm
  | cons kv tl ih =>
    rw [List.cons_append]
    cases kv with
    | mk k0 v0 =>
      rw [List.lookup_cons] at hm ⊢
      cases hk : (k == k0) with
      | true => simpa [hk] using hm
      | false =>
        simp only [hk] at hm ⊢
        exact ih hm

theorem lookup_append_right {m : AttrMap} {k : String}
    (hm : m.lookup k = none) (m2 : AttrMap) : (m ++ m2).lookup k = m2.lookup k := by
  induction m with
  | nil => simp
  | cons kv tl ih =>
    rw [List.cons_append]
    cases kv with
    | mk k0 v0 =>
      rw [List.lookup_cons] at hm ⊢
      cases hk : (k == k0) with
      | true => simp [hk] at hm
      | false =>
        simp only [hk] at hm ⊢
        exact ih hm

theorem lookup_append_single_ne {m : AttrMap} {k k0 : String} (v0 : String)
    (hk : (k == k0) = false) : (m ++ [(k0, v0)]).lookup k = m.lookup k := by
  cases hm : m.lookup k with
  | some v => exact lookup_append_left hm _
  | none => rw [lookup_append_right hm, List.lookup_cons]; simp [hk]

theorem heap_getD_set_self {h : Heap} {dst : Nat} (a : AttrMap)
    (hdst : dst < h.length) : (h.set dst a).getD dst [] = a := by
  rw [List.getD_eq_getElem?_getD, List.getElem?_set_self hdst]
  rfl

theorem heap_getD_set_ne {h : Heap} {dst r : Nat} (a : AttrMap)
    (hne : dst ≠ r) : (h.set dst a).getD r [] = h.getD r [] := by
  rw [List.getD_eq_getElem?_getD, List.getElem?_set_ne hne,
    ← List.getD_eq_getElem?_getD]

theorem mergeOverlapAttrs_ok_tags {f : Fld} {ov : List Fld} {h : Heap}
    {w : List MergeWarn} {h' : Heap} {w' : List MergeWarn}
    (hok : mergeOverlapAttrs f ov h w = .ok (h', w')) :
    ∀ g ∈ ov, g.2.2.tag = f.2.2.tag := by
  induction ov generalizing h w with
  | nil => simp
  | cons g2 os ih =>
    intro g hg
    rw [mergeOverlapAttrs] at hok
    by_cases ht : g2.2.2.tag ≠ f.2.2.tag
    · rw [if_pos ht] at hok
      exact absurd hok (by simp)
    · rw [if_neg ht] at hok
      rcases List.mem_cons.mp hg with hg | hg
      · subst hg; omega
      · exact ih hok g hg

theorem mergeOverlapAttrs_error_shape {f : Fld} {ov : List Fld} {h : Heap}
    {w : List MergeWarn} {e : MergeErr}
    (herr : mergeOverlapAttrs f ov h w = .error e) :
    ∃ t1 t2, e = .typeConflict t1 t2 := by
  induction ov generalizing h w with
  | nil => simp [mergeOverlapAttrs] at herr
  | cons g2 os ih =>
    rw [mergeOverlapAttrs] at herr
    by_cases ht : g2.2.2.tag ≠ f.2.2.tag
    · rw [if_pos ht] at herr
      exact ⟨f.2.2, g2.2.2, by injection herr.symm⟩
    · rw [if_neg ht] at herr
      exact ih herr

/-- Unfolding of one step of the attribute-merge fold. -/
theorem mergeAttrsInto_cons (fieldName : String) (dst : Nat) (kv : String × String)
    (tl : AttrMap) (h : Heap) (w : List MergeWarn) :
    mergeAttrsInto fieldName dst (kv :: tl) h w =
      match (h.getD dst []).lookup kv.1 with
      | some v0 =>
        if kv.2 ≠ v0 then
          mergeAttrsInto fieldName dst tl h (w ++ [.attrConflict fieldName kv.1 v0 kv.2])
        else
          mergeAttrsInto fieldName dst tl h w
      | none => mergeAttrsInto fieldName dst tl (h.set dst (h.getD dst [] ++ [kv])) w := by
  show List.foldl _ _ (kv :: tl) = _
  rw [List.foldl_cons]
  cases hlk : (h.getD dst []).lookup kv.1 with
  | some v0 =>
    by_cases hv : kv.2 ≠ v0
    · simp only [hlk, if_pos hv]
      rfl
    · simp only [hlk, if_neg hv]
      rfl
  | none =>
    simp only [hlk]
    rfl

/-- First-seen values survive the attribute merge: a key already present
in the destination map keeps its value. -/
theorem mergeAttrsInto_keeps {src : AttrMap} {fieldName : String} {dst : Nat}
    {h : Heap} {w : List MergeWarn} {k v0 : String}
    (hk : (h.getD dst []).lookup k = some v0) :
    (((mergeAttrsInto fieldName dst src h w).1).getD dst []).lookup k = some v0 := by
  induction src generalizing h w with
  | nil => exact hk
  | cons kv tl ih =>
    rw [mergeAttrsInto_cons]
    cases hlk : (h.getD dst []).lookup kv.1 with
    | some v0' =>
      dsimp only
      by_cases hv : kv.2 ≠ v0'
      · rw [if_pos hv]; exact ih hk
      · rw [if_neg hv]; exact ih hk
    | none =>
      dsimp only
      by_cases hdst : dst < h.length
      · apply ih
        rw [heap_getD_set_self _ hdst]
        exact lookup_append_left hk _
      · have hset : (h.set dst (h.getD dst [] ++ [kv])) = h :=
          List.set_eq_of_length_le (by omega)
        rw [hset]
        exact ih hk

/-- Keys absent from the destination map are unioned in with their first
source value (for an in-range destination reference). -/
theorem mergeAttrsInto_unions {src : AttrMap} {fieldName : String} {dst : Nat}
    {h : Heap} {w : List MergeWarn} {k v : String}
    (hdst : dst < h.length)
    (hk : (h.getD dst []).lookup k = none) (hsrc : src.lookup k = some v) :
    (((mergeAttrsInto fieldName dst src h w).1).getD dst []).lookup k = some v := by
  induction src generalizing h w with
  | nil => simp [List.lookup] at hsrc
  | cons kv tl ih =>
    cases kv with
    | mk k0 va =>
      rw [List.lookup_cons] at hsrc
      rw [mergeAttrsInto_cons]
      cases hk0 : (k == k0) with
      | true =>
        simp only [hk0] at hsrc
        have hkeq : k = k0 := by simpa using hk0
        subst hkeq
        rw [show ((h.getD dst []).lookup k = none) from hk]
        dsimp only
        have hbase : ((h.set dst (h.getD dst [] ++ [(k, va)])).getD dst []).lookup k
            = some va := by
          rw [heap_getD_set_self _ hdst, lookup_append_right hk, List.lookup_cons]
          simp
        have hres := @mergeAttrsInto_keeps tl fieldName dst
          (h.set dst (h.getD dst [] ++ [(k, va)])) w k va hbase
        rw [hres]
        exact hsrc
      | false =>
        simp only [hk0] at hsrc
        cases hlk : (h.getD dst []).lookup k0 with
        | some v0' =>
          dsimp only
          by_cases hv : va ≠ v0'
          · rw [if_pos hv]; exact ih hdst hk hsrc
          · rw [if_neg hv]; exact ih hdst hk hsrc
        | none =>
          dsimp only
          have hlen : dst < (h.set dst (h.getD dst [] ++ [(k0, va)])).length := by
            rw [List.length_set]; exact hdst
          refine ih hlen ?_ hsrc
          rw [heap_getD_set_self _ hdst, lookup_append_single_ne va hk0]
          exact hk

/-! ## Error shape and field order of `merge_TStructs` (C5, C6) -/

theorem dedupInto_cons (acc : List String) (n : String) (ns : List String) :
    dedupInto acc (n :: ns) = dedupInto (if acc.contains n then acc else acc ++ [n]) ns := rfl

/-- Every error of `merge_TStructs`/`mergeLoop` raised from a non-empty
input list is the `SchemaTypeConflict` `TypeError` of line 933. -/
theorem mergeLoop_error_shape :
    ∀ (cur : List Fld) (rest : List (List Fld)) (fields : List Fld) (h : Heap)
      (w : List MergeWarn) (e : MergeErr),
      mergeLoop cur rest fields h w = .error e → ∃ t1 t2, e = .typeConflict t1 t2 := by
  refine mergeLoop.induct
    (fun s h w => s ≠ [] → ∀ e, merge_TStructs s h w = .error e →
      ∃ t1 t2, e = .typeConflict t1 t2)
    (fun cur rest fields h w => ∀ e, mergeLoop cur rest fields h w = .error e →
      ∃ t1 t2, e = .typeConflict t1 t2)
    ?_ ?_ ?_ ?_ ?_ ?_ ?_ ?_ ?_ ?_ ?_
  · intro h w hne
    exact absurd rfl hne
  · intro h w t _ e hres
    simp [merge_TStructs] at hres
  · intro h w t0 t1 ts fields h' w' hml _ _ e hres
    simp only [merge_TStructs, hml] at hres
    simp at hres
  · intro h w t0 t1 ts e0 hml ih _ e hres
    simp only [merge_TStructs, hml] at hres
    injection hres with he
    subst he
    exact ih e0 hml
  · intro fields h w e hres
    simp [mergeLoop] at hres
  · intro fields h w next rest' ih e hres
    simp only [mergeLoop] at hres
    exact ih e hres
  · intro rest fields h w f cs hcont ih e hres
    simp only [mergeLoop, if_pos hcont] at hres
    exact ih e hres
  · intro rest fields h w f cs hcont overlap e0 hov e hres
    simp only [mergeLoop, if_neg hcont, hov] at hres
    injection hres with he
    subst he
    exact mergeOverlapAttrs_error_shape hov
  · intro rest fields h w f cs hcont overlap h' w' hov hcond merged h'' w'' hmerge _ ih
    intro e hres
    simp only [mergeLoop, if_neg hcont, hov, if_pos hcond, hmerge] at hres
    exact ih e hres
  · intro rest fields h w f cs hcont overlap h' w' hov hcond e0 hmerge ih e hres
    simp only [mergeLoop, if_neg hcont, hov, if_pos hcond, hmerge] at hres
    injection hres with he
    subst he
    exact ih (by simp) e0 hmerge
  · intro rest fields h w f cs hcont overlap h' w' hov hcond ih e hres
    simp only [mergeLoop, if_neg hcont, hov, if_neg hcond] at hres
    exact ih e hres

/-- The output names of the merge loop: the already-resolved names, then
the first occurrence of every remaining name in queue order. -/
theorem mergeLoop_names :
    ∀ (cur : List Fld) (rest : List (List Fld)) (fields : List Fld) (h : Heap)
      (w : List MergeWarn),
      ∀ (out : List Fld) (h' : Heap) (w' : List MergeWarn),
        mergeLoop cur rest fields h w = .ok (out, h', w') →
        out.map (fun g => g.1) =
          dedupInto (fields.map (fun g => g.1))
            (cur.map (fun g => g.1) ++
              (rest.map (fun l => l.map (fun g => g.1))).flatten) := by
  refine mergeLoop.induct (fun _ _ _ => True)
    (fun cur rest fields h w =>
      ∀ (out : List Fld) (h' : Heap) (w' : List MergeWarn),
        mergeLoop cur rest fields h w = .ok (out, h', w') →
        out.map (fun g => g.1) =
          dedupInto (fields.map (fun g => g.1))
            (cur.map (fun g => g.1) ++
              (rest.map (fun l => l.map (fun g => g.1))).flatten))
    ?_ ?_ ?_ ?_ ?_ ?_ ?_ ?_ ?_ ?_ ?_
  · intro _ _; trivial
  · intro _ _ _; trivial
  · intro _ _ _ _ _ _ _ _ _ _; trivial
  · intro _ _ _ _ _ _ _ _; trivial
  · intro fields h w out h' w' hres
    simp only [mergeLoop] at hres
    injection hres with h1
    injection h1 with h2 h3
    subst h2
    simp [dedupInto]
  · intro fields h w next rest' ih out h' w' hres
    simp only [mergeLoop] at hres
    rw [ih out h' w' hres]
    simp
  · intro rest fields h w f cs hcont ih out h' w' hres
    simp only [mergeLoop, if_pos hcont] at hres
    rw [ih out h' w' hres, List.map_cons, List.cons_append, dedupInto_cons,
      if_pos hcont]
  · intro rest fields h w f cs hcont overlap e0 hov out h' w' hres
    simp only [mergeLoop, if_neg hcont, hov] at hres
    simp at hres
  · intro rest fields h w f cs hcont overlap h1 w1 hov hcond merged h2 w2 hmerge _ ih
    intro out h' w' hres
    simp only [mergeLoop, if_neg hcont, hov, if_pos hcond, hmerge] at hres
    rw [ih out h' w' hres, List.map_cons, List.cons_append, dedupInto_cons,
      if_neg hcont]
    simp [List.map_append]
  · intro rest fields h w f cs hcont overlap h1 w1 hov hcond e0 hmerge _ out h' w' hres
    simp only [mergeLoop, if_neg hcont, hov, if_pos hcond, hmerge] at hres
    simp at hres
  · intro rest fields h w f cs hcont overlap h1 w1 hov hcond ih out h' w' hres
    simp only [mergeLoop, if_neg hcont, hov, if_neg hcond] at hres
    rw [ih out h' w' hres, List.map_cons, List.cons_append, dedupInto_cons,
      if_neg hcont]
    simp [List.map_append]

/-- C5: for every queue of two or more structs that `merge_TStructs`
merges successfully, the output field order is the first occurrence of
every name in queue order — the first struct's fields first in their
original order, then fields introduced only by later structs in
processing order.  (`dedupFirst` of the concatenated name lists is exactly
that order.) -/
theorem merge_structs_field_order (s : List HailType) (h : Heap)
    (w : List MergeWarn) (t : HailType) (h' : Heap) (w' : List MergeWarn)
    (hlen : 2 ≤ s.length) (hok : merge_TStructs s h w = .ok (t, h', w')) :
    structNames t = dedupFirst ((s.map structNames).flatten) := by
  match s, hlen with
  | t0 :: t1 :: ts, _ =>
    simp only [merge_TStructs] at hok
    cases hml : mergeLoop t0.structFields ((t1 :: ts).map HailType.structFields) [] h w with
    | ok r =>
      obtain ⟨fields, h2, w2⟩ := r
      rw [hml] at hok
      dsimp only at hok
      injection hok with hok1
      injection hok1 with hokt hokrest
      have hnames := mergeLoop_names t0.structFields
        ((t1 :: ts).map HailType.structFields) [] h w fields h2 w2 hml
      rw [← hokt]
      simp only [structNames, HailType.structFields, dedupFirst]
      rw [hnames]
      simp only [structNames, List.map_map, Function.comp, List.map_cons,
        List.flatten_cons, List.map_nil]
      rfl
    | error e =>
      rw [hml] at hok
      dsimp only at hok
      exact absurd hok (by simp)

/-- Witness for C5: `mergeStructs([{a:Int, b:String}, {b:String, c:Float}])`
succeeds with field order `[a, b, c]`. -/
theorem merge_structs_field_order_witness :
    2 ≤ ([HailType.tstruct [("a", 0, .tint), ("b", 1, .tstring)],
          HailType.tstruct [("b", 2, .tstring), ("c", 3, .tfloat)]] : List HailType).length ∧
    merge_TStructs
        [.tstruct [("a", 0, .tint), ("b", 1, .tstring)],
         .tstruct [("b", 2, .tstring), ("c", 3, .tfloat)]] [[], [], [], []] [] =
      .ok (.tstruct [("a", 0, .tint), ("b", 1, .tstring), ("c", 3, .tfloat)],
        [[], [], [], []], []) ∧
    structNames (.tstruct [("a", 0, .tint), ("b", 1, .tstring), ("c", 3, .tfloat)]) =
      dedupFirst (([HailType.tstruct [("a", 0, .tint), ("b", 1, .tstring)],
          HailType.tstruct [("b", 2, .tstring), ("c", 3, .tfloat)]].map structNames).flatten) := by
  have hmerge : merge_TStructs
      [.tstruct [("a", 0, .tint), ("b", 1, .tstring)],
       .tstruct [("b", 2, .tstring), ("c", 3, .tfloat)]] [[], [], [], []] [] =
      .ok (.tstruct [("a", 0, .tint), ("b", 1, .tstring), ("c", 3, .tfloat)],
        [[], [], [], []], []) := by
    simp [merge_TStructs, mergeLoop, mergeOverlapAttrs, mergeAttrsInto, lookupFld,
      HailType.structFields, HailType.isTStruct, HailType.tag]
  exact ⟨by decide, hmerge,
    merge_structs_field_order _ _ _ _ _ _ (by decide) hmerge⟩

/-! ## C4 — mutation of input attribute maps by the merge -/

/-- When no name is shared between the current struct and the remaining
queue (and within the remaining queue), the merge loop leaves the heap
and the warning log untouched. -/
theorem mergeLoop_disjoint_frame :
    ∀ (cur : List Fld) (rest : List (List Fld)) (fields : List Fld) (h : Heap)
      (w : List MergeWarn),
      ∀ (out : List Fld) (h' : Heap) (w' : List MergeWarn),
        queueDisjoint (cur :: rest) →
        mergeLoop cur rest fields h w = .ok (out, h', w') → h' = h ∧ w' = w := by
  refine mergeLoop.induct (fun _ _ _ => True)
    (fun cur rest fields h w =>
      ∀ (out : List Fld) (h' : Heap) (w' : List MergeWarn),
        queueDisjoint (cur :: rest) →
        mergeLoop cur rest fields h w = .ok (out, h', w') → h' = h ∧ w' = w)
    ?_ ?_ ?_ ?_ ?_ ?_ ?_ ?_ ?_ ?_ ?_
  · intro _ _; trivial
  · intro _ _ _; trivial
  · intro _ _ _ _ _ _ _ _ _ _; trivial
  · intro _ _ _ _ _ _ _ _; trivial
  · intro fields h w out h' w' _ hres
    simp only [mergeLoop] at hres
    injection hres with h1
    injection h1 with h2 h3
    injection h3 with h4 h5
    exact ⟨h4.symm, h5.symm⟩
  · intro fields h w next rest' ih out h' w' hdisj hres
    simp only [mergeLoop] at hres
    exact ih out h' w' (List.pairwise_cons.mp hdisj).2 hres
  · intro rest fields h w f cs hcont ih out h' w' hdisj hres
    simp only [mergeLoop, if_pos hcont] at hres
    obtain ⟨hrel, htail⟩ := List.pairwise_cons.mp hdisj
    exact ih out h' w'
      (List.pairwise_cons.mpr
        ⟨fun b hb g hg => hrel b hb g (List.mem_cons_of_mem f hg), htail⟩) hres
  · intro rest fields h w f cs hcont overlap e0 hov out h' w' hdisj hres
    obtain ⟨hrel, htail⟩ := List.pairwise_cons.mp hdisj
    have hovnil : overlap = [] :=
      List.filterMap_eq_nil_iff.mpr (fun b hb => hrel b hb f (List.mem_cons_self f cs))
    rw [hovnil] at hov
    simp [mergeOverlapAttrs] at hov
  · intro rest fields h w f cs hcont overlap h1 w1 hov hcond merged h2 w2 hmerge _ ih
    intro out h' w' hdisj hres
    obtain ⟨hrel, htail⟩ := List.pairwise_cons.mp hdisj
    have hovnil : overlap = [] :=
      List.filterMap_eq_nil_iff.mpr (fun b hb => hrel b hb f (List.mem_cons_self f cs))
    rw [hovnil] at hcond
    simp at hcond
  · intro rest fields h w f cs hcont overlap h1 w1 hov hcond e0 hmerge _ out h' w' hdisj hres
    obtain ⟨hrel, htail⟩ := List.pairwise_cons.mp hdisj
    have hovnil : overlap = [] :=
      List.filterMap_eq_nil_iff.mpr (fun b hb => hrel b hb f (List.mem_cons_self f cs))
    rw [hovnil] at hcond
    simp at hcond
  · intro rest fields h w f cs hcont overlap h1 w1 hov hcond ih out h' w' hdisj hres
    simp only [mergeLoop, if_neg hcont, hov, if_neg hcond] at hres
    obtain ⟨hrel, htail⟩ := List.pairwise_cons.mp hdisj
    have hovnil : overlap = [] :=
      List.filterMap_eq_nil_iff.mpr (fun b hb => hrel b hb f (List.mem_cons_self f cs))
    rw [hovnil] at hov
    simp only [mergeOverlapAttrs] at hov
    injection hov with hov1
    injection hov1 with hh hw
    have hQ : queueDisjoint (cs :: rest) :=
      List.pairwise_cons.mpr
        ⟨fun b hb g hg => hrel b hb g (List.mem_cons_of_mem f hg), htail⟩
    have hfr := ih out h' w' hQ hres
    exact ⟨by rw [hfr.1, ← hh], by rw [hfr.2, ← hw]⟩

/-- C4 (amended): when no field name occurs in two of the input structs,
`merge_TStructs` leaves every attribute map unchanged.  (With overlapping
names it writes keys from later structs into the first-seen field's map,
mutating its input — see the counterexample below.) -/
theorem merge_no_mutation_when_disjoint (s : List HailType) (h : Heap)
    (w : List MergeWarn) (t : HailType) (h' : Heap) (w' : List MergeWarn)
    (hdisj : List.Pairwise
      (fun a b => ∀ f ∈ a.structFields, lookupFld f.1 b.structFields = none) s)
    (hok : merge_TStructs s h w = .ok (t, h', w')) : h' = h := by
  match s with
  | [] => simp [merge_TStructs] at hok
  | [t0] =>
    simp only [merge_TStructs] at hok
    injection hok with h1
    injection h1 with h2 h3
    injection h3 with h4 h5
    exact h4.symm
  | t0 :: t1 :: ts =>
    simp only [merge_TStructs] at hok
    cases hml : mergeLoop t0.structFields ((t1 :: ts).map HailType.structFields) [] h w with
    | ok r =>
      obtain ⟨fields, h2, w2⟩ := r
      rw [hml] at hok
      dsimp only at hok
      injection hok with h1
      injection h1 with h2e h3
      injection h3 with h4 h5
      have hQ : queueDisjoint (t0.structFields :: (t1 :: ts).map HailType.structFields) := by
        have hall : queueDisjoint ((t0 :: t1 :: ts).map HailType.structFields) := by
          rw [queueDisjoint, List.pairwise_map]
          exact hdisj
        rw [List.map_cons] at hall
        exact hall
      have hfr := mergeLoop_disjoint_frame _ _ _ _ _ _ _ _ hQ hml
      rw [← h4, hfr.1]
    | error e =>
      rw [hml] at hok
      dsimp only at hok
      exact absurd hok (by simp)

/-- Witness for the amended C4 on the disjoint input
`[{a:Int}, {b:String}]`: the heap is returned unchanged. -/
theorem merge_no_mutation_when_disjoint_witness :
    ([[("k", "v")], []] : Heap) = [[("k", "v")], []] :=
  merge_no_mutation_when_disjoint
    [.tstruct [("a", 0, .tint)], .tstruct [("b", 1, .tstring)]]
    [[("k", "v")], []] [] (.tstruct [("a", 0, .tint), ("b", 1, .tstring)])
    [[("k", "v")], []] []
    (by
      refine List.pairwise_cons.mpr ⟨?_, List.pairwise_singleton _ _⟩
      intro b hb f hf
      simp only [List.mem_singleton] at hb
      subst hb
      simp only [HailType.structFields, List.mem_singleton] at hf
      subst hf
      rfl)
    (by
      simp [merge_TStructs, mergeLoop, mergeOverlapAttrs, mergeAttrsInto, lookupFld,
        HailType.structFields, HailType.isTStruct, HailType.tag])

/-- C4 (counterexample): `merge_TStructs` mutates its input — merging
`{a:Int}` (empty attribute map, slot 0) with `{a:Int, Number="1"}`
(slot 1) writes `Number="1"` into slot 0, the attribute map of the first
input struct's field, which is no longer its initial value. -/
theorem merge_mutates_input_attrs :
    merge_TStructs [.tstruct [("a", 0, .tint)], .tstruct [("a", 1, .tint)]]
        [[], [("Number", "1")]] [] =
      .ok (.tstruct [("a", 0, .tint)], [[("Number", "1")], [("Number", "1")]], []) ∧
    ([[("Number", "1")], [("Number", "1")]] : Heap).getD 0 [] ≠
      ([[], [("Number", "1")]] : Heap).getD 0 [] := by
  constructor
  · simp [merge_TStructs, mergeLoop, mergeOverlapAttrs, mergeAttrsInto, lookupFld,
      HailType.structFields, HailType.isTStruct, HailType.tag]
  · decide

/-! ## C6 — merge fails with SchemaTypeConflict on tag mismatches -/

theorem lookupFld_cons_self (f : Fld) (cs : List Fld) :
    lookupFld f.1 (f :: cs) = some f := by
  simp [lookupFld, List.find?_cons]

theorem lookupFld_cons_ne {n : String} (f : Fld) (cs : List Fld) (hn : n ≠ f.1) :
    lookupFld n (f :: cs) = lookupFld n cs := by
  have hbeq : (f.1 == n) = false := beq_eq_false_iff_ne.mpr (Ne.symm hn)
  simp [lookupFld, List.find?_cons, hbeq]

theorem contains_append_singleton_false {acc : List String} {n m : String}
    (h1 : acc.contains n = false) (h2 : n ≠ m) :
    (acc ++ [m]).contains n = false := by
  have hmem : n ∉ acc := by simpa using h1
  have hmem2 : n ∉ acc ++ [m] := by simp [List.mem_append, hmem, h2]
  simpa using hmem2

theorem queueCompatible_singleton (fields : List Fld) (x : List Fld) :
    queueCompatible fields [x] := by
  intro n g1 g2 p1 p2 p3 a b heq hn hg1 hg2
  have hlen := congrArg List.length heq
  simp [List.length_append] at hlen
  omega

theorem queueCompatible_of_next {fields next : List Fld} {rest' : List (List Fld)}
    (hQ : queueCompatible fields (next :: rest')) :
    queueCompatible fields ([] :: next :: rest') := by
  intro n g1 g2 p1 p2 p3 x y heq hn hg1 hg2
  cases p1 with
  | nil =>
    rw [List.nil_append] at heq
    injection heq with hx hrest
    rw [← hx] at hg1
    simp [lookupFld] at hg1
  | cons z p1' =>
    rw [List.cons_append] at heq
    injection heq with hz hrest
    exact hQ n g1 g2 p1' p2 p3 x y hrest hn hg1 hg2

theorem queueCompatible_of_skip {fields : List Fld} {f : Fld} {cs : List Fld}
    {rest : List (List Fld)}
    (hcont : (fields.map (fun g => g.1)).contains f.1 = true)
    (hQ : queueCompatible fields (cs :: rest)) :
    queueCompatible fields ((f :: cs) :: rest) := by
  intro n g1 g2 p1 p2 p3 x y heq hn hg1 hg2
  have hnf : n ≠ f.1 := by
    intro hnf
    rw [hnf] at hn
    rw [hn] at hcont
    simp at hcont
  cases p1 with
  | nil =>
    rw [List.nil_append] at heq
    injection heq with hx hrest
    rw [← hx, lookupFld_cons_ne f cs hnf] at hg1
    exact hQ n g1 g2 [] p2 p3 cs y (by rw [hrest]; simp) hn hg1 hg2
  | cons z p1' =>
    rw [List.cons_append] at heq
    injection heq with hz hrest
    exact hQ n g1 g2 (cs :: p1') p2 p3 x y (by rw [hrest]; simp) hn hg1 hg2

theorem queueCompatible_of_tail (newf : Fld) {fields : List Fld} {f : Fld}
    {cs : List Fld} {rest : List (List Fld)} (hfn : newf.1 = f.1)
    (htags : ∀ g ∈ rest.filterMap (lookupFld f.1), g.2.2.tag = f.2.2.tag)
    (hQ : queueCompatible (fields ++ [newf]) (cs :: rest)) :
    queueCompatible fields ((f :: cs) :: rest) := by
  intro n g1 g2 p1 p2 p3 x y heq hn hg1 hg2
  by_cases hnf : n = f.1
  · subst hnf
    cases p1 with
    | nil =>
      rw [List.nil_append] at heq
      injection heq with hx hrest
      rw [← hx, lookupFld_cons_self f cs] at hg1
      injection hg1 with hg1e
      have hy : y ∈ rest := by rw [hrest]; simp
      have ht2 := htags g2 (List.mem_filterMap.mpr ⟨y, hy, hg2⟩)
      rw [← hg1e, ht2]
    | cons z p1' =>
      rw [List.cons_append] at heq
      injection heq with hz hrest
      have hx : x ∈ rest := by rw [hrest]; simp
      have hy : y ∈ rest := by rw [hrest]; simp
      have ht1 := htags g1 (List.mem_filterMap.mpr ⟨x, hx, hg1⟩)
      have ht2 := htags g2 (List.mem_filterMap.mpr ⟨y, hy, hg2⟩)
      rw [ht1, ht2]
  · have hn' : ((fields ++ [newf]).map (fun g => g.1)).contains n = false := by
      rw [List.map_append, List.map_cons, List.map_nil]
      exact contains_append_singleton_false hn (by rw [hfn]; exact hnf)
    cases p1 with
    | nil =>
      rw [List.nil_append] at heq
      injection heq with hx hrest
      rw [← hx, lookupFld_cons_ne f cs hnf] at hg1
      exact hQ n g1 g2 [] p2 p3 cs y (by rw [hrest]; simp) hn' hg1 hg2
    | cons z p1' =>
      rw [List.cons_append] at heq
      injection heq with hz hrest
      exact hQ n g1 g2 (cs :: p1') p2 p3 x y (by rw [hrest]; simp) hn' hg1 hg2

/-- A successful merge loop implies tag compatibility of every unresolved
name across its queue. -/
theorem mergeLoop_compatible :
    ∀ (cur : List Fld) (rest : List (List Fld)) (fields : List Fld) (h : Heap)
      (w : List MergeWarn) (r : List Fld × Heap × List MergeWarn),
      mergeLoop cur rest fields h w = .ok r → queueCompatible fields (cur :: rest) := by
  refine mergeLoop.induct (fun _ _ _ => True)
    (fun cur rest fields h w =>
      ∀ (r : List Fld × Heap × List MergeWarn),
        mergeLoop cur rest fields h w = .ok r → queueCompatible fields (cur :: rest))
    ?_ ?_ ?_ ?_ ?_ ?_ ?_ ?_ ?_ ?_ ?_
  · intro _ _; trivial
  · intro _ _ _; trivial
  · intro _ _ _ _ _ _ _ _ _ _; trivial
  · intro _ _ _ _ _ _ _ _; trivial
  · intro fields h w r _
    exact queueCompatible_singleton fields []
  · intro fields h w next rest' ih r hres
    simp only [mergeLoop] at hres
    exact queueCompatible_of_next (ih r hres)
  · intro rest fields h w f cs hcont ih r hres
    simp only [mergeLoop, if_pos hcont] at hres
    exact queueCompatible_of_skip hcont (ih r hres)
  · intro rest fields h w f cs hcont overlap e0 hov r hres
    simp only [mergeLoop, if_neg hcont, hov] at hres
    simp at hres
  · intro rest fields h w f cs hcont overlap h1 w1 hov hcond merged h2 w2 hmerge _ ih
    intro r hres
    simp only [mergeLoop, if_neg hcont, hov, if_pos hcond, hmerge] at hres
    exact queueCompatible_of_tail (f.1, f.2.1, merged) rfl
      (mergeOverlapAttrs_ok_tags hov) (ih r hres)
  · intro rest fields h w f cs hcont overlap h1 w1 hov hcond e0 hmerge _ r hres
    simp only [mergeLoop, if_neg hcont, hov, if_pos hcond, hmerge] at hres
    simp at hres
  · intro rest fields h w f cs hcont overlap h1 w1 hov hcond ih r hres
    simp only [mergeLoop, if_neg hcont, hov, if_neg hcond] at hres
    exact queueCompatible_of_tail f rfl (mergeOverlapAttrs_ok_tags hov) (ih r hres)

/-- C6: whenever two input structs contain a same-named field whose types
have different top-level variant tags, `merge_TStructs` fails with the
`SchemaTypeConflict` `TypeError` (and produces no output struct); equal
tags with differing element types — `{a: Array[Int]}` merged with
`{a: Array[String]}` — do not fail. -/
theorem merge_schema_type_conflict :
    (∀ (s : List HailType) (h : Heap) (w : List MergeWarn) (n : String)
       (g1 g2 : Fld) (q1 q2 q3 : List HailType) (x y : HailType),
       s = q1 ++ x :: q2 ++ y :: q3 →
       lookupFld n x.structFields = some g1 →
       lookupFld n y.structFields = some g2 →
       g1.2.2.tag ≠ g2.2.2.tag →
       isTypeConflictResult (merge_TStructs s h w) = true) ∧
    merge_TStructs
        [.tstruct [("a", 0, .tarray .tint)], .tstruct [("a", 1, .tarray .tstring)]]
        [[], []] [] =
      .ok (.tstruct [("a", 0, .tarray .tint)], [[], []], []) := by
  constructor
  · intro s h w n g1 g2 q1 q2 q3 x y hshape hg1 hg2 htag
    rcases s with _ | ⟨t0, _ | ⟨t1, ts⟩⟩
    · exfalso
      have := congrArg List.length hshape
      simp [List.length_append] at this
      omega
    · exfalso
      have := congrArg List.length hshape
      simp [List.length_append] at this
      omega
    · simp only [merge_TStructs]
      cases hml : mergeLoop t0.structFields ((t1 :: ts).map HailType.structFields) [] h w with
      | ok r =>
        exfalso
        have hQ := mergeLoop_compatible _ _ _ _ _ r hml
        have hqeq : t0.structFields :: (t1 :: ts).map HailType.structFields =
            (q1.map HailType.structFields) ++ x.structFields ::
              (q2.map HailType.structFields) ++ y.structFields ::
              (q3.map HailType.structFields) := by
          rw [← List.map_cons, hshape]
          simp [List.map_append, List.map_cons]
        exact htag (hQ n g1 g2 (q1.map HailType.structFields)
          (q2.map HailType.structFields) (q3.map HailType.structFields)
          x.structFields y.structFields hqeq (by simp) hg1 hg2)
      | error e =>
        dsimp only
        obtain ⟨ta, tb, he⟩ := mergeLoop_error_shape _ _ _ _ _ e hml
        subst he
        rfl
  · simp [merge_TStructs, mergeLoop, mergeOverlapAttrs, mergeAttrsInto, lookupFld,
      HailType.structFields, HailType.isTStruct, HailType.tag]

/-- Witness for C6: `mergeStructs([{a:Int}, {a:String}])` fails with
SchemaTypeConflict. -/
theorem merge_schema_type_conflict_witness :
    isTypeConflictResult (merge_TStructs
      [.tstruct [("a", 0, .tint)], .tstruct [("a", 1, .tstring)]] [[], []] []) = true :=
  merge_schema_type_conflict.1
    [.tstruct [("a", 0, .tint)], .tstruct [("a", 1, .tstring)]] [[], []] []
    "a" ("a", 0, .tint) ("a", 1, .tstring) [] [] []
    (.tstruct [("a", 0, .tint)]) (.tstruct [("a", 1, .tstring)])
    rfl rfl rfl (by decide)

/-! ## C7 — attribute union: first value wins, conflicts warn -/

theorem attrConflictsOf_congr {fieldName : String} {b1 b2 src : AttrMap}
    (hb : ∀ kv ∈ src, b1.lookup kv.1 = b2.lookup kv.1) :
    attrConflictsOf fieldName b1 src = attrConflictsOf fieldName b2 src := by
  induction src with
  | nil => rfl
  | cons kv tl ih =>
    show List.filterMap _ (kv :: tl) = List.filterMap _ (kv :: tl)
    rw [List.filterMap_cons, List.filterMap_cons,
      hb kv (List.mem_cons_self _ _)]
    have htl := ih (fun kv' h' => hb kv' (List.mem_cons_of_mem _ h'))
    unfold attrConflictsOf at htl
    rw [htl]

theorem attrConflictsOf_cons (fieldName : String) (base : AttrMap)
    (kv : String × String) (tl : AttrMap) :
    attrConflictsOf fieldName base (kv :: tl) =
      (match base.lookup kv.1 with
       | some v0 =>
         if kv.2 ≠ v0 then [MergeWarn.attrConflict fieldName kv.1 v0 kv.2] else []
       | none => []) ++ attrConflictsOf fieldName base tl := by
  show List.filterMap _ (kv :: tl) = _
  rw [List.filterMap_cons]
  cases base.lookup kv.1 with
  | some v0 =>
    dsimp only
    by_cases hv : kv.2 ≠ v0
    · rw [if_pos hv, if_pos hv]
      rfl
    · rw [if_neg hv, if_neg hv]
      rfl
  | none => rfl

/-- The warnings of one attribute merge: exactly one `AttributeConflict`
per key defined on both sides with differing values (keys of `src`
assumed distinct, as they are in a Python dict). -/
theorem mergeAttrsInto_warns {src : AttrMap} {fieldName : String} {dst : Nat}
    {h : Heap} {w : List MergeWarn}
    (hnodup : (src.map Prod.fst).Nodup) :
    (mergeAttrsInto fieldName dst src h w).2 =
      w ++ attrConflictsOf fieldName (h.getD dst []) src := by
  induction src generalizing h w with
  | nil => simp [mergeAttrsInto, attrConflictsOf]
  | cons kv tl ih =>
    rw [List.map_cons, List.nodup_cons] at hnodup
    obtain ⟨hkv, htl⟩ := hnodup
    rw [mergeAttrsInto_cons, attrConflictsOf_cons]
    cases hlk : (h.getD dst []).lookup kv.1 with
    | some v0 =>
      dsimp only
      by_cases hv : kv.2 ≠ v0
      · rw [if_pos hv, if_pos hv, ih htl]
        simp
      · rw [if_neg hv, if_neg hv, ih htl]
        simp
    | none =>
      dsimp only
      rw [ih htl, List.nil_append]
      congr 1
      by_cases hdst : dst < h.length
      · rw [heap_getD_set_self _ hdst]
        refine attrConflictsOf_congr (fun kv' hkv' => ?_)
        have hne : kv'.1 ≠ kv.1 := by
          intro hc
          exact hkv (hc ▸ List.mem_map_of_mem Prod.fst hkv')
        cases kv with
        | mk k0 v0 =>
          exact lookup_append_single_ne v0 (beq_eq_false_iff_ne.mpr hne)
      · rw [List.set_eq_of_length_le (by omega)]

/-- C7: during `merge_TStructs`, for same-named fields the attribute maps
are unioned into the first-seen field's map — a key already present keeps
its value; a key defined by both fields with a different value emits an
`AttributeConflict` warning and keeps the first value; a key present in
only one field is unioned in; the merge continues.  In particular merging
`{a:Int, Number="1"}` with `{a:Int, Number="2"}` keeps `Number="1"` and
emits exactly one warning, and merging `{a:Int, X="1"}` with
`{a:Int, Y="2"}` unions the keys. -/
theorem merge_attr_union_law :
    (∀ (fieldName : String) (dst : Nat) (src : AttrMap) (h : Heap)
       (w : List MergeWarn) (k v0 : String),
       (h.getD dst []).lookup k = some v0 →
       (((mergeAttrsInto fieldName dst src h w).1).getD dst []).lookup k = some v0) ∧
    (∀ (fieldName : String) (dst : Nat) (src : AttrMap) (h : Heap)
       (w : List MergeWarn) (k v : String),
       dst < h.length →
       (h.getD dst []).lookup k = none → src.lookup k = some v →
       (((mergeAttrsInto fieldName dst src h w).1).getD dst []).lookup k = some v) ∧
    (∀ (fieldName : String) (dst : Nat) (src : AttrMap) (h : Heap)
       (w : List MergeWarn),
       (src.map Prod.fst).Nodup →
       (mergeAttrsInto fieldName dst src h w).2 =
         w ++ attrConflictsOf fieldName (h.getD dst []) src) ∧
    merge_TStructs [.tstruct [("a", 0, .tint)], .tstruct [("a", 1, .tint)]]
        [[("Number", "1")], [("Number", "2")]] [] =
      .ok (.tstruct [("a", 0, .tint)], [[("Number", "1")], [("Number", "2")]],
        [.attrConflict "a" "Number" "1" "2"]) ∧
    merge_TStructs [.tstruct [("a", 0, .tint)], .tstruct [("a", 1, .tint)]]
        [[("X", "1")], [("Y", "2")]] [] =
      .ok (.tstruct [("a", 0, .tint)], [[("X", "1"), ("Y", "2")], [("Y", "2")]], []) := by
  refine ⟨?_, ?_, ?_, ?_, ?_⟩
  · intro fieldName dst src h w k v0 hk
    exact mergeAttrsInto_keeps hk
  · intro fieldName dst src h w k v hdst hk hsrc
    exact mergeAttrsInto_unions hdst hk hsrc
  · intro fieldName dst src h w hnodup
    exact mergeAttrsInto_warns hnodup
  · simp [merge_TStructs, mergeLoop, mergeOverlapAttrs, mergeAttrsInto, lookupFld,
      HailType.structFields, HailType.isTStruct, HailType.tag]
  · simp [merge_TStructs, mergeLoop, mergeOverlapAttrs, mergeAttrsInto, lookupFld,
      HailType.structFields, HailType.isTStruct, HailType.tag]
    decide

/-- Witness for C7: the first-seen value of `Number` survives a concrete
conflicting attribute merge. -/
theorem merge_attr_union_law_witness :
    (((mergeAttrsInto "a" 0 [("Number", "2")] [[("Number", "1")]] []).1).getD 0 []).lookup
      "Number" = some "1" :=
  merge_attr_union_law.1 "a" 0 [("Number", "2")] [[("Number", "1")]] [] "Number" "1" rfl

end GnomadUtils
